import Mathlib

/-!
Verification of the faderpunk control core (clock engine, latch controller,
scene store) against its natural-language specification.  The firmware
implementation itself is not part of the repository snapshot (only the user
manual, the configurator UI and the changelogs are), so the components are
modelled from the specification's words and the properties are settled
against those models.
-/

/- ## Clock divisions (manual: "Available clock output resolutions") -/

/-- Modelled from the spec: the enumerated musical subdivisions offered as
clock output resolutions in the configurator manual (24/12/6/4/3/2/1 PPQN
and 1/2/4 bars), each mapping to an exact integer count of 24-ppqn pulses. -/
inductive Division where
  | ppqn24 | ppqn12 | ppqn6 | ppqn4 | ppqn3 | ppqn2 | ppqn1
  | bar1 | bar2 | bar4
  deriving DecidableEq, Repr

/-- Modelled from the spec: a Division maps deterministically to an integer
pulse count using the 24-ppqn pulse clock as the unit (4/4 bar = 96 pulses).
A clock-out at N PPQN fires every 24/N pulses. -/
def division_to_pulses : Division → Nat
  | .ppqn24 => 1
  | .ppqn12 => 2
  | .ppqn6 => 4
  | .ppqn4 => 6
  | .ppqn3 => 8
  | .ppqn2 => 12
  | .ppqn1 => 24
  | .bar1 => 96
  | .bar2 => 192
  | .bar4 => 384

/-- Modelled from the spec: `divide(pulse_count, division)` returns true on
pulses where `pulse_count mod division_to_pulses(division) == 0`; used
identically by internal apps and the clock-out generator. -/
def divide (pulse_count : Nat) (d : Division) : Bool :=
  pulse_count % division_to_pulses d == 0

/- ## External tick normalization (clock engine) -/

/-- Modelled from the spec: the accumulator state normalizing an external
tick stream of native resolution R ppqn to the internal 24-ppqn pulse
clock.  `emitted` counts internal pulses produced so far, `acc` holds the
fractional remainder (as a numerator over the denominator R). -/
structure TickNorm where
  emitted : Nat
  acc : Nat
  deriving DecidableEq, Repr

/-- Modelled from the spec: `on_external_tick` adds 24 (internal pulses per
quarter) to the fractional accumulator of a source running at `R` ticks per
quarter and emits the whole pulses accumulated, keeping the fractional part
rather than truncating it away. -/
def on_external_tick (R : Nat) (st : TickNorm) : TickNorm :=
  let n := st.acc + 24
  { emitted := st.emitted + n / R, acc := n % R }

/-- Modelled from the spec: the normalizer state after `N` incoming external
ticks at native resolution `R`, starting from a reset accumulator. -/
def runTicks (R : Nat) : Nat → TickNorm
  | 0 => { emitted := 0, acc := 0 }
  | n + 1 => on_external_tick R (runTicks R n)

/- ## Debounced scene saves (scene store) -/

/-- Modelled from the spec: the debounced single-writer save path.  Given
the sorted arrival times of save requests for one slot and the debounce
window `W`, each request re-arms the cooldown timer; a physical write is
issued `W` after the last request of a burst (a maximal run of requests
whose consecutive gaps stay within the window).  The result is the list of
physical write times, issued sequentially by the single writer. -/
def debounceWrites (W : Nat) : List Nat → List Nat
  | [] => []
  | [t] => [t + W]
  | a :: b :: rest =>
    if b ≤ a + W then debounceWrites W (b :: rest)
    else (a + W) :: debounceWrites W (b :: rest)

/- ## Hardware factory reset -/

/-- Modelled from the spec: the persistent records held by the device that a
factory reset touches or preserves: per-app configurations, saved scenes,
global settings, and the calibration record. -/
structure DeviceState where
  appConfigs : List Nat
  sceneData : Nat → Option (List Nat)
  globalSettings : Nat
  calibration : List Nat

/-- Modelled from the spec: the compiled-in default app configurations. -/
def defaultAppConfigs : List Nat := []

/-- Modelled from the spec: the compiled-in default global settings. -/
def defaultGlobalSettings : Nat := 0

/-- Modelled from the spec (manual, Troubleshooting / Factory Reset): a
hardware factory reset resets all app configurations to their defaults,
clears all saved scenes and resets global settings, while the calibration
data is preserved ("never erase calibration range"). -/
def factoryReset (st : DeviceState) : DeviceState :=
  { appConfigs := defaultAppConfigs
    sceneData := fun _ => none
    globalSettings := defaultGlobalSettings
    calibration := st.calibration }

/- ## Theorems -/

/-- C3: every Division maps to a positive integer count of 24-ppqn pulses,
`divide` is true exactly on pulse counts divisible by that count, and
whenever D1's pulse count evenly divides D2's, every D2 pulse is also a D1
pulse (exact subdivision nesting, no drift). -/
theorem divide_nesting :
    (∀ d : Division, 0 < division_to_pulses d) ∧
    (∀ (pc : Nat) (d : Division),
      divide pc d = true ↔ pc % division_to_pulses d = 0) ∧
    (∀ (d1 d2 : Division) (pc : Nat),
      division_to_pulses d1 ∣ division_to_pulses d2 →
      divide pc d2 = true → divide pc d1 = true) := by
  refine ⟨?_, ?_, ?_⟩
  · intro d; cases d <;> decide
  · intro pc d
    simp [divide]
  · intro d1 d2 pc hdvd h2
    simp only [divide, beq_iff_eq] at h2 ⊢
    obtain ⟨k, hk⟩ := dvd_trans hdvd (Nat.dvd_of_mod_eq_zero h2)
    subst hk
    exact Nat.mul_mod_right _ _

/-- Witness for C3 at a concrete input: 6 PPQN (4 pulses) divides 1 PPQN
(24 pulses), and pulse 48 fires both of them. -/
theorem divide_nesting_witness :
    division_to_pulses Division.ppqn6 ∣ division_to_pulses Division.ppqn1 ∧
    divide 48 Division.ppqn1 = true ∧ divide 48 Division.ppqn6 = true :=
  ⟨by decide, by decide,
    divide_nesting.2.2 Division.ppqn6 Division.ppqn1 48 (by decide) (by decide)⟩

/-- Helper: closed form of the fractional-accumulator normalizer after `N`
ticks: it has emitted exactly `⌊24 N / R⌋` pulses and holds remainder
`24 N mod R`. -/
theorem runTicks_closed_form (R : Nat) (hR : 0 < R) (N : Nat) :
    (runTicks R N).emitted = 24 * N / R ∧ (runTicks R N).acc = 24 * N % R := by
  induction N with
  | zero => simp [runTicks]
  | succ n ih =>
    obtain ⟨he, ha⟩ := ih
    constructor
    · show (runTicks R n).emitted + ((runTicks R n).acc + 24) / R = _
      rw [he, ha]
      have h1 : 24 * (n + 1) = R * (24 * n / R) + (24 * n % R + 24) := by
        have := Nat.div_add_mod (24 * n) R
        omega
      rw [h1, Nat.mul_add_div hR]
    · show ((runTicks R n).acc + 24) % R = _
      rw [ha]
      have h1 : 24 * (n + 1) = R * (24 * n / R) + (24 * n % R + 24) := by
        have := Nat.div_add_mod (24 * n) R
        omega
      rw [h1, Nat.mul_add_mod]

/-- C4: for every native resolution `R` (including non-integer ratios to
24 ppqn) the accumulated pulse count after `N` incoming ticks equals
`⌊24 N / R⌋` exactly: the fractional part is carried, never truncated away,
so the emitted count stays within one pulse of the exact rational ratio
`24 N / R` forever (no long-run phase drift). -/
theorem on_external_tick_no_drift (R : Nat) (hR : 0 < R) (N : Nat) :
    (runTicks R N).emitted = 24 * N / R ∧
    R * (runTicks R N).emitted ≤ 24 * N ∧
    24 * N < R * (runTicks R N).emitted + R := by
  obtain ⟨he, ha⟩ := runTicks_closed_form R hR N
  refine ⟨he, ?_, ?_⟩
  · rw [he]; exact Nat.mul_div_le (24 * N) R |>.trans_eq (by ring_nf)
  · rw [he]
    have := Nat.div_add_mod (24 * N) R
    have := Nat.mod_lt (24 * N) hR
    omega

/-- Witness for C4 at a concrete input: a 9-ppqn source (ratio 24/9, not an
integer) after 7 ticks has emitted ⌊168/9⌋ = 18 pulses. -/
theorem on_external_tick_no_drift_witness :
    0 < 9 ∧ (runTicks 9 7).emitted = 24 * 7 / 9 :=
  ⟨by decide, (on_external_tick_no_drift 9 (by decide) 7).1⟩

/-- C8: a burst of save requests to one slot whose consecutive gaps all stay
within the debounce window collapses to exactly one physical write, issued
one debounce window after the last request; the writes list is produced by
the single sequential writer, so writes never interleave. -/
theorem debounce_single_write (W : Nat) (ts : List Nat) (hne : ts ≠ [])
    (hburst : List.Chain' (fun a b => b ≤ a + W) ts) :
    debounceWrites W ts = [ts.getLast hne + W] := by
  induction ts with
  | nil => exact absurd rfl hne
  | cons a rest ih =>
    cases rest with
    | nil => simp [debounceWrites]
    | cons b rest' =>
      have hab : b ≤ a + W := (List.chain'_cons.mp hburst).1
      have htail := (List.chain'_cons.mp hburst).2
      rw [debounceWrites, if_pos hab, ih (List.cons_ne_nil b rest') htail]
      simp [List.getLast]

/-- Witness for C8 at a concrete input: three rapid saves at times 0, 3, 6
with a debounce window of 5 produce exactly the single write at time 11. -/
theorem debounce_single_write_witness :
    ([0, 3, 6] : List Nat) ≠ [] ∧
    List.Chain' (fun a b => b ≤ a + 5) [0, 3, 6] ∧
    debounceWrites 5 [0, 3, 6] = [11] :=
  ⟨by decide, by norm_num [List.chain'_cons],
    debounce_single_write 5 [0, 3, 6] (by decide) (by norm_num [List.chain'_cons])⟩

/-- C10: a hardware factory reset resets app configurations to their
defaults, clears all saved scenes and resets the global settings, but the
calibration record after the reset equals the calibration record before. -/
theorem factoryReset_preserves_calibration (st : DeviceState) :
    (factoryReset st).calibration = st.calibration ∧
    (factoryReset st).appConfigs = defaultAppConfigs ∧
    (∀ n, (factoryReset st).sceneData n = none) ∧
    (factoryReset st).globalSettings = defaultGlobalSettings := by
  refine ⟨rfl, rfl, fun n => rfl, rfl⟩

/- ## Latch controller -/

/-- Modelled from the spec: the pickup policy of a latched parameter.
`Jump` re-engages when the fader passes through the target within a small
absolute tolerance; `Scale` reconciles relatively from the last touch
point instead of requiring an exact crossing. -/
inductive PickupMode where
  | Jump
  | Scale
  deriving DecidableEq, Repr

/-- Modelled from the spec: the per-ParameterId latch state: the tracked
physical input, the authoritative target, the lock flag, the pickup policy
and the parameter's declared absolute pickup tolerance. -/
structure LatchState where
  raw_input : ℚ
  target : ℚ
  locked : Bool
  pickup_mode : PickupMode
  tolerance : ℚ
  deriving DecidableEq, Repr

/-- Modelled from the spec: the value exposed to the app: `target` while
locked, `raw_input` once unlocked. -/
def exposedValue (st : LatchState) : ℚ :=
  if st.locked then st.target else st.raw_input

/-- Modelled from the spec: whether a sample `x` lies within the absolute
tolerance band around the target (the `Jump` pickup condition). -/
def inBand (st : LatchState) (x : ℚ) : Bool :=
  decide (st.target - st.tolerance ≤ x) && decide (x ≤ st.target + st.tolerance)

/-- Modelled from the spec: whether input sample `x` satisfies the pickup
condition of the active mode.  In `Jump` mode the sample must cross the
target within the absolute tolerance; in `Scale` mode any touch re-engages
relatively (the proportional value mapping itself is outside this model). -/
def catches (st : LatchState) (x : ℚ) : Bool :=
  match st.pickup_mode with
  | .Jump => inBand st x
  | .Scale => true

/-- Modelled from the spec: a physical input update: the raw input is
tracked always; a locked latch unlocks exactly when the sample satisfies
the pickup condition, and an unlocked latch never spontaneously re-locks. -/
def updateRawInput (x : ℚ) (st : LatchState) : LatchState :=
  { st with raw_input := x, locked := st.locked && !(catches st x) }

/-- Modelled from the spec: feeding a sequence of raw physical input
samples, in order, through the latch. -/
def processInputs (xs : List ℚ) (st : LatchState) : LatchState :=
  xs.foldl (fun s x => updateRawInput x s) st

/-- Modelled from the spec: scene recall re-arms the latch: it sets a new
target and forces `locked`. -/
def recallLatch (t : ℚ) (st : LatchState) : LatchState :=
  { st with target := t, locked := true }

/-- Modelled from the spec: a programmatic (external, non-recall) change of
the target unlocks the latch immediately instead of waiting for a catch: a
latch must never suppress a legitimate programmatic change to its own
target. -/
def setTargetExternal (t : ℚ) (st : LatchState) : LatchState :=
  { st with target := t, locked := false }

/-- Helper: an input update never changes the target, the pickup mode or
the tolerance. -/
theorem updateRawInput_frame (x : ℚ) (st : LatchState) :
    (updateRawInput x st).target = st.target ∧
    (updateRawInput x st).pickup_mode = st.pickup_mode ∧
    (updateRawInput x st).tolerance = st.tolerance :=
  ⟨rfl, rfl, rfl⟩

/-- Helper: processing a locked Jump-mode latch with samples that all stay
outside the tolerance band leaves it locked with target, mode and tolerance
untouched. -/
theorem processInputs_locked_of_outside (xs : List ℚ) :
    ∀ st : LatchState, st.locked = true → st.pickup_mode = .Jump →
    (∀ y ∈ xs, inBand st y = false) →
    (processInputs xs st).locked = true ∧
    (processInputs xs st).target = st.target ∧
    (processInputs xs st).pickup_mode = .Jump ∧
    (processInputs xs st).tolerance = st.tolerance := by
  induction xs with
  | nil => intro st h1 h2 _; exact ⟨h1, rfl, h2, rfl⟩
  | cons x rest ih =>
    intro st h1 h2 hout
    have hx : inBand st x = false := hout x (List.mem_cons_self x rest)
    have hstep : updateRawInput x st =
        { st with raw_input := x, locked := true } := by
      simp [updateRawInput, catches, h1, h2, hx]
    have hfold : processInputs (x :: rest) st =
        processInputs rest (updateRawInput x st) := rfl
    rw [hfold, hstep]
    exact ih { st with raw_input := x, locked := true } rfl h2
      (fun y hy => hout y (List.mem_cons_of_mem x hy))

/-- Helper: once unlocked, a latch stays unlocked under any further input
samples, and its raw input tracks the last sample fed. -/
theorem processInputs_unlocked (xs : List ℚ) :
    ∀ st : LatchState, st.locked = false →
    (processInputs xs st).locked = false ∧
    (processInputs xs st).raw_input = xs.getLastD st.raw_input := by
  induction xs with
  | nil => intro st h; exact ⟨h, rfl⟩
  | cons x rest ih =>
    intro st h
    have hstep : updateRawInput x st =
        { st with raw_input := x, locked := false } := by
      simp [updateRawInput, h]
    have hfold : processInputs (x :: rest) st =
        processInputs rest (updateRawInput x st) := rfl
    rw [hfold, hstep]
    obtain ⟨h1, h2⟩ := ih { st with raw_input := x, locked := false } rfl
    refine ⟨h1, ?_⟩
    rw [h2, List.getLastD_cons]

/-- C1: a locked Jump-mode latch fed samples that never enter the tolerance
band around the target exposes exactly the target at every read; at the
first sample inside the band it unlocks, and from then on every read
exposes the raw input exactly (the last sample fed). -/
theorem latch_jump_pickup (st : LatchState) (pre : List ℚ) (x : ℚ)
    (post : List ℚ) (h1 : st.locked = true) (h2 : st.pickup_mode = .Jump)
    (hpre : ∀ y ∈ pre, inBand st y = false) (hx : inBand st x = true) :
    (exposedValue (processInputs pre st) = st.target ∧
      (processInputs pre st).locked = true) ∧
    ((processInputs (pre ++ x :: post) st).locked = false ∧
      exposedValue (processInputs (pre ++ x :: post) st) =
        (processInputs (pre ++ x :: post) st).raw_input ∧
      (processInputs (pre ++ x :: post) st).raw_input = post.getLastD x) := by
  obtain ⟨hl, ht, hm, htol⟩ := processInputs_locked_of_outside pre st h1 h2 hpre
  have hmid := processInputs pre st
  refine ⟨⟨by simp [exposedValue, hl, ht], hl⟩, ?_⟩
  have hsplit : processInputs (pre ++ x :: post) st =
      processInputs post (updateRawInput x (processInputs pre st)) := by
    simp [processInputs, List.foldl_append]
  have hxmid : inBand (processInputs pre st) x = true := by
    simpa [inBand, ht, htol] using hx
  have hunlock : (updateRawInput x (processInputs pre st)).locked = false := by
    simp [updateRawInput, catches, hm, hxmid]
  obtain ⟨hu1, hu2⟩ := processInputs_unlocked post _ hunlock
  rw [hsplit]
  exact ⟨hu1, by simp [exposedValue, hu1], by simpa using hu2⟩

/-- Witness for C1 at the spec's concrete scenario: target 0.75, tolerance
0.02, locked Jump latch; samples 0.25 and 0.70 stay outside the band and the
exposed value remains 0.75; sample 0.74 enters [0.73, 0.77], unlocks the
latch, and after a further sample 0.9 the exposed value is the raw input. -/
theorem latch_jump_pickup_witness :
    (let st : LatchState :=
      { raw_input := 0, target := 3/4, locked := true,
        pickup_mode := .Jump, tolerance := 1/50 }
    st.locked = true ∧ st.pickup_mode = .Jump ∧
    (∀ y ∈ [(1/4 : ℚ), 7/10], inBand st y = false) ∧
    inBand st (74/100) = true ∧
    ((exposedValue (processInputs [1/4, 7/10] st) = st.target ∧
      (processInputs [1/4, 7/10] st).locked = true) ∧
    ((processInputs ([1/4, 7/10] ++ 74/100 :: [9/10]) st).locked = false ∧
      exposedValue (processInputs ([1/4, 7/10] ++ 74/100 :: [9/10]) st) =
        (processInputs ([1/4, 7/10] ++ 74/100 :: [9/10]) st).raw_input ∧
      (processInputs ([1/4, 7/10] ++ 74/100 :: [9/10]) st).raw_input =
        [(9/10 : ℚ)].getLastD (74/100)))) := by
  refine ⟨rfl, rfl, by norm_num [inBand], by norm_num [inBand], ?_⟩
  exact latch_jump_pickup _ [1/4, 7/10] (74/100) [9/10] rfl rfl
    (by norm_num [inBand]) (by norm_num [inBand])

/-- C6: a programmatic external change of the target of a locked latch
unlocks it immediately: the new target is applied at once and the latch no
longer suppresses it, without waiting for the raw input to satisfy the
pickup condition. -/
theorem setTargetExternal_unlocks (st : LatchState) (t : ℚ)
    (_h : st.locked = true) :
    (setTargetExternal t st).locked = false ∧
    (setTargetExternal t st).target = t ∧
    exposedValue (setTargetExternal t st) = st.raw_input := by
  exact ⟨rfl, rfl, by simp [exposedValue, setTargetExternal]⟩

/-- Witness for C6 at a concrete input: a locked latch whose target is
programmatically moved to 1/2 unlocks at once. -/
theorem setTargetExternal_unlocks_witness :
    (let st : LatchState :=
      { raw_input := 1/5, target := 3/4, locked := true,
        pickup_mode := .Jump, tolerance := 1/50 }
    st.locked = true ∧
    ((setTargetExternal (1/2) st).locked = false ∧
      (setTargetExternal (1/2) st).target = 1/2 ∧
      exposedValue (setTargetExternal (1/2) st) = st.raw_input)) :=
  ⟨rfl, setTargetExternal_unlocks _ (1/2) rfl⟩

/- ## Scene store -/

/-- Modelled from the spec: a StorageSlot owned by an app: its in-memory
value (a raw storage word), its compiled-in default, and whether the
parameter is marked persisted ("store state" enabled). -/
structure StorageSlot where
  value : Nat
  slotDefault : Nat
  persisted : Bool
  deriving DecidableEq, Repr

/-- Modelled from the spec: the per-app state the scene store coordinates:
the app's declared StorageSlots and the latch states of its live
parameters. -/
structure AppState where
  store : List StorageSlot
  latches : List LatchState
  deriving DecidableEq, Repr

/-- Modelled from the spec: a serialized per-app scene record: a length
field, a checksum, and the serialized persisted values. -/
structure Blob where
  len : Nat
  crc : Nat
  data : List Nat
  deriving DecidableEq, Repr

/-- Modelled from the spec: the checksum over a serialized record (the
fram-level crc check; the concrete polynomial is immaterial to the
validation contract). -/
def crcOf (data : List Nat) : Nat :=
  data.foldl (fun a b => (a + b * 31 + 7) % 256) 0

/-- Modelled from the spec: serializing data into a well-formed record with
its length and checksum. -/
def mkBlob (data : List Nat) : Blob :=
  { len := data.length, crc := crcOf data, data := data }

/-- Modelled from the spec: the load-time sanity check: a record is valid
exactly when its length field and checksum both match its data. -/
def validBlob (b : Blob) : Bool :=
  (b.data.length == b.len) && (crcOf b.data == b.crc)

/-- Modelled from the spec: `save` serializes an app's persisted
StorageSlots, in declaration order, into the slot's blob. -/
def serializeApp (a : AppState) : Blob :=
  mkBlob ((a.store.filter (·.persisted)).map (·.value))

/-- Modelled from the spec: restoring serialized values into the app's
StorageSlots: persisted slots consume the recorded values in order,
non-persisted slots are untouched. -/
def applyValues : List StorageSlot → List Nat → List StorageSlot
  | [], _ => []
  | s :: rest, [] => s :: rest
  | s :: rest, v :: vt =>
    if s.persisted then { s with value := v } :: applyValues rest vt
    else s :: applyValues rest (v :: vt)

/-- Modelled from the spec: substituting the compiled-in defaults for every
persisted StorageSlot (the fallback when a corrupt record is rejected). -/
def applyDefaults (store : List StorageSlot) : List StorageSlot :=
  store.map (fun s => if s.persisted then { s with value := s.slotDefault } else s)

/-- Modelled from the spec: recall re-arms the owning app's Latch
Controllers: each restored value becomes a new target and the latch is
forced Locked. -/
def armLatches (ls : List LatchState) (vs : List Nat) : List LatchState :=
  List.zipWith (fun l v => recallLatch (v : ℚ) l) ls vs ++ ls.drop vs.length

/-- Modelled from the spec: recalling one app's scene record: the blob is
validated first; a valid record is applied in full (values restored, latches
re-armed and locked), a corrupt or truncated record is rejected atomically
and the compiled-in defaults are substituted instead — no partial data is
ever applied, and the operation always returns a well-formed state. -/
def recallApp (b : Blob) (a : AppState) : AppState :=
  if validBlob b then
    { store := applyValues a.store b.data,
      latches := armLatches a.latches b.data }
  else
    { store := applyDefaults a.store,
      latches := armLatches a.latches
        ((a.store.filter (·.persisted)).map (·.slotDefault)) }

/-- Modelled from the spec: the whole system the scene store coordinates:
the active apps and the 16 scene slots of persistent storage (one optional
per-app blob list each). -/
structure FpSystem where
  apps : List AppState
  scenes : Nat → Option (List Blob)

/-- Modelled from the spec: `save(slot: 1..=15)` serializes every active
app's persisted StorageSlots into the slot's blobs; slot 0 is never a save
target. -/
def saveSystem (n : Nat) (sys : FpSystem) : FpSystem :=
  if 1 ≤ n ∧ n ≤ 15 then
    { sys with scenes := fun k =>
        if k = n then some (sys.apps.map serializeApp) else sys.scenes k }
  else sys

/-- Modelled from the spec: `recall(slot: 0..=15)`: slot 0 means "no
recall, use whatever is currently live" and is a no-op on app parameters;
a slot with no saved data is also a no-op (InvalidRecall); otherwise every
app's record is validated and applied. -/
def recallSystem (n : Nat) (sys : FpSystem) : FpSystem :=
  if n = 0 then sys
  else
    match sys.scenes n with
    | none => sys
    | some blobs =>
      { sys with apps :=
          List.zipWith (fun a b => recallApp b a) sys.apps blobs ++
            sys.apps.drop blobs.length }

/-- Helper: the persisted parameter values of every app, in order. -/
def persistedValues (sys : FpSystem) : List (List Nat) :=
  sys.apps.map (fun a => (a.store.filter (·.persisted)).map (·.value))

/-- C2: recalling scene slot 0 is a no-op on the whole system state: every
app's live parameter values, every LatchState and every StorageSlot's
in-memory value are left unchanged. -/
theorem recall_slot_zero_noop (sys : FpSystem) : recallSystem 0 sys = sys :=
  rfl

/-- Helper: restoring the empty value list leaves a store unchanged. -/
theorem applyValues_nil (l : List StorageSlot) : applyValues l [] = l := by
  cases l <;> rfl

/-- Helper: a slot updated with its own value is unchanged. -/
theorem slot_update_self (s : StorageSlot) : { s with value := s.value } = s := by
  cases s
  rfl

/-- Helper: restoring exactly the serialized persisted values of a store
reproduces the store. -/
theorem applyValues_serialize (l : List StorageSlot) :
    applyValues l ((l.filter (·.persisted)).map (·.value)) = l := by
  induction l with
  | nil => rfl
  | cons s rest ih =>
    by_cases hp : s.persisted
    · rw [List.filter_cons_of_pos hp, List.map_cons]
      show (if s.persisted then
          { s with value := s.value } :: applyValues rest _
        else _) = s :: rest
      rw [if_pos hp, slot_update_self, ih]
    · have hp' : s.persisted = false := by
        simpa using hp
      rw [List.filter_cons_of_neg hp]
      cases hv : (List.filter (·.persisted) rest).map (·.value) with
      | nil => rfl
      | cons v vt =>
        show (if s.persisted then _ else s :: applyValues rest (v :: vt)) =
          s :: rest
        rw [if_neg hp, ← hv, ih]

/-- Helper: a freshly serialized record always passes the sanity check. -/
theorem validBlob_mkBlob (data : List Nat) : validBlob (mkBlob data) = true := by
  simp [validBlob, mkBlob]

/-- Helper: recalling an app's own freshly saved record restores its store
bit-identically. -/
theorem recallApp_serializeApp_store (a : AppState) :
    (recallApp (serializeApp a) a).store = a.store := by
  rw [recallApp, serializeApp]
  rw [if_pos (validBlob_mkBlob _)]
  exact applyValues_serialize a.store

/-- Helper: pairing each app with its own serialized record. -/
theorem zipWith_recallApp_map (l : List AppState) :
    List.zipWith (fun a b => recallApp b a) l (l.map serializeApp) =
      l.map (fun a => recallApp (serializeApp a) a) := by
  induction l with
  | nil => rfl
  | cons a rest ih => simpa [List.zipWith] using ih

/-- C9: for every slot N in 1..=15, saving slot N and then recalling slot N
reproduces bit-identical StorageSlot values for every app parameter marked
persisted (save/recall round-trip law). -/
theorem save_recall_roundtrip (sys : FpSystem) (n : Nat)
    (h1 : 1 ≤ n) (h2 : n ≤ 15) :
    persistedValues (recallSystem n (saveSystem n sys)) = persistedValues sys := by
  have hn0 : n ≠ 0 := by omega
  rw [saveSystem, if_pos ⟨h1, h2⟩]
  rw [recallSystem]
  rw [if_neg hn0]
  simp only [eq_self_iff_true, if_true]
  rw [zipWith_recallApp_map, List.length_map, List.drop_length,
    List.append_nil]
  unfold persistedValues
  rw [List.map_map]
  refine List.map_congr_left (fun a _ => ?_)
  simp [Function.comp, recallApp_serializeApp_store a]

/-- Witness for C9 at a concrete input: one app, a persisted slot holding 5
and a non-persisted one holding 7, saved to and recalled from slot 3. -/
theorem save_recall_roundtrip_witness :
    (1 ≤ 3 ∧ 3 ≤ 15) ∧
    persistedValues (recallSystem 3 (saveSystem 3
      { apps := [{ store := [{ value := 5, slotDefault := 0, persisted := true },
                             { value := 7, slotDefault := 1, persisted := false }],
                   latches := [] }],
        scenes := fun _ => none })) =
      persistedValues
      { apps := [{ store := [{ value := 5, slotDefault := 0, persisted := true },
                             { value := 7, slotDefault := 1, persisted := false }],
                   latches := [] }],
        scenes := fun _ => none } :=
  ⟨by omega,
    save_recall_roundtrip
      { apps := [{ store := [{ value := 5, slotDefault := 0, persisted := true },
                             { value := 7, slotDefault := 1, persisted := false }],
                   latches := [] }],
        scenes := fun _ => none } 3 (by omega) (by omega)⟩

/-- Helper: after substituting defaults, every persisted slot's value is its
compiled-in default. -/
theorem applyDefaults_persisted (l : List StorageSlot) :
    ((applyDefaults l).filter (·.persisted)).map (·.value) =
      (l.filter (·.persisted)).map (·.slotDefault) := by
  induction l with
  | nil => rfl
  | cons s rest ih =>
    by_cases hp : s.persisted
    · rw [applyDefaults, List.map_cons, if_pos hp]
      rw [List.filter_cons_of_pos (by simpa using hp),
        List.filter_cons_of_pos hp, List.map_cons, List.map_cons]
      exact congrArg _ ih
    · rw [applyDefaults, List.map_cons, if_neg hp]
      rw [List.filter_cons_of_neg hp, List.filter_cons_of_neg hp]
      exact ih

/-- C7: a corrupt or truncated record (checksum or length mismatch) is
rejected atomically: the store is replaced wholesale by the compiled-in
defaults — every persisted parameter ends at its default value, no field of
the corrupt data is applied — and recall is a total operation (it always
returns a well-formed state rather than crashing). -/
theorem corrupt_blob_rejected (b : Blob) (a : AppState)
    (hb : validBlob b = false) :
    (recallApp b a).store = applyDefaults a.store ∧
    (((recallApp b a).store.filter (·.persisted)).map (·.value) =
      (a.store.filter (·.persisted)).map (·.slotDefault)) ∧
    (∀ s ∈ (recallApp b a).store, s.persisted = false →
      s ∈ a.store) := by
  have hst : (recallApp b a).store = applyDefaults a.store := by
    rw [recallApp, if_neg (by simp [hb])]
  refine ⟨hst, ?_, ?_⟩
  · rw [hst]; exact applyDefaults_persisted a.store
  · intro s hs hnp
    rw [hst] at hs
    obtain ⟨t, ht, hts⟩ := List.mem_map.mp hs
    by_cases hp : t.persisted
    · rw [if_pos hp] at hts
      subst hts
      simp at hnp
      exact absurd hp (by simp [hnp])
    · rw [if_neg hp] at hts
      exact hts ▸ ht

/-- Witness for C7 at a concrete input: a truncated blob (length field 5,
two data bytes) is rejected and both persisted parameters fall back to
their compiled-in defaults. -/
theorem corrupt_blob_rejected_witness :
    validBlob { len := 5, crc := 0, data := [1, 2] } = false ∧
    ((recallApp { len := 5, crc := 0, data := [1, 2] }
        { store := [{ value := 5, slotDefault := 9, persisted := true },
                    { value := 7, slotDefault := 1, persisted := false }],
          latches := [] }).store.filter (·.persisted)).map (·.value) =
      (([{ value := 5, slotDefault := 9, persisted := true },
         { value := 7, slotDefault := 1, persisted := false }] :
          List StorageSlot).filter (·.persisted)).map (·.slotDefault) :=
  ⟨by decide,
    (corrupt_blob_rejected { len := 5, crc := 0, data := [1, 2] }
      { store := [{ value := 5, slotDefault := 9, persisted := true },
                  { value := 7, slotDefault := 1, persisted := false }],
        latches := [] } (by decide)).2.1⟩

/- ## Clock engine: internal clock generation and BPM changes -/

/-- Modelled from the spec: the clock engine state: transport flag, the
current tempo, the pulse counter since the last transport reset, and the
currently-elapsed fraction of the current pulse (the phase). -/
structure ClockState where
  running : Bool
  bpm : ℚ
  pulse_count : Nat
  phase : ℚ
  deriving DecidableEq, Repr

/-- Modelled from the spec: 24-ppqn pulses per second at a given tempo. -/
def pulseRate (bpm : ℚ) : ℚ := bpm * 24 / 60

/-- Modelled from the spec: `set_bpm` retunes the internal clock
phase-continuously: the next tick deadline is recomputed from the current
phase instead of resetting a fixed-period timer, so neither the pulse
counter nor the elapsed fraction of the current pulse jumps. -/
def set_bpm (b : ℚ) (st : ClockState) : ClockState :=
  { st with bpm := b }

/-- Modelled from the spec: how many whole pulses elapse when a running
clock advances by `dt` seconds from its current phase. -/
def pulsesAdvanced (st : ClockState) (dt : ℚ) : Nat :=
  (⌊st.phase + dt * pulseRate st.bpm⌋).toNat

/-- Modelled from the spec: advancing real time on the internal clock: the
elapsed phase accumulates at the current tempo, each whole pulse crossed is
emitted with the next consecutive pulse index, and the fractional phase is
kept.  A stopped clock emits nothing. -/
def advanceClock (dt : ℚ) (st : ClockState) : ClockState × List Nat :=
  if st.running then
    ({ st with pulse_count := st.pulse_count + pulsesAdvanced st dt,
               phase := st.phase + dt * pulseRate st.bpm - pulsesAdvanced st dt },
     (List.range (pulsesAdvanced st dt)).map (fun i => st.pulse_count + 1 + i))
  else (st, [])

/-- Modelled from the spec: the events driving the running internal clock
that matter for the BPM-change contract: a `set_bpm` request or the passage
of real time. -/
inductive ClockEv where
  | setBpm (b : ℚ)
  | advance (dt : ℚ)

/-- Modelled from the spec: one clock-engine step, returning the new state
and the pulse indices emitted during the step. -/
def stepClock (st : ClockState) : ClockEv → ClockState × List Nat
  | .setBpm b => (set_bpm b st, [])
  | .advance dt => advanceClock dt st

/-- Modelled from the spec: running the clock engine over a sequence of
events, concatenating the emitted pulse indices in order. -/
def runClock (st : ClockState) : List ClockEv → ClockState × List Nat
  | [] => (st, [])
  | e :: es =>
    ((runClock (stepClock st e).1 es).1,
      (stepClock st e).2 ++ (runClock (stepClock st e).1 es).2)

/-- Helper: a clock step never decreases the pulse counter. -/
theorem stepClock_pc_le (st : ClockState) (e : ClockEv) :
    st.pulse_count ≤ (stepClock st e).1.pulse_count := by
  cases e with
  | setBpm b => exact le_refl _
  | advance dt =>
    by_cases hr : st.running
    · simp [stepClock, advanceClock, hr]
    · simp [stepClock, advanceClock, hr]

/-- Helper: the pulses emitted by one clock step are exactly the
consecutive indices between the old and the new pulse counter. -/
theorem stepClock_emit (st : ClockState) (e : ClockEv) :
    (stepClock st e).2 =
      (List.range ((stepClock st e).1.pulse_count - st.pulse_count)).map
        (fun i => st.pulse_count + 1 + i) := by
  cases e with
  | setBpm b => simp [stepClock, set_bpm]
  | advance dt =>
    by_cases hr : st.running
    · simp [stepClock, advanceClock, hr]
    · simp [stepClock, advanceClock, hr]

/-- Helper: consecutive index ranges glue across an intermediate counter. -/
theorem range_glue (pc mid fin : Nat) (h1 : pc ≤ mid) (h2 : mid ≤ fin) :
    (List.range (mid - pc)).map (fun i => pc + 1 + i) ++
      (List.range (fin - mid)).map (fun i => mid + 1 + i) =
      (List.range (fin - pc)).map (fun i => pc + 1 + i) := by
  have hd : fin - pc = (mid - pc) + (fin - mid) := by omega
  rw [hd, List.range_add, List.map_append, List.map_map]
  refine congrArg _ (List.map_congr_left (fun i _ => ?_))
  simp only [Function.comp_apply]
  omega

/-- Helper: every run of the clock engine — with arbitrary `set_bpm` events
interleaved — emits exactly the consecutive pulse indices following the
initial pulse counter: no pulse is ever skipped or repeated. -/
theorem runClock_consecutive (evs : List ClockEv) :
    ∀ st : ClockState,
    st.pulse_count ≤ (runClock st evs).1.pulse_count ∧
    (runClock st evs).2 =
      (List.range ((runClock st evs).1.pulse_count - st.pulse_count)).map
        (fun i => st.pulse_count + 1 + i) := by
  induction evs with
  | nil =>
    intro st
    refine ⟨le_refl _, ?_⟩
    show ([] : List Nat) =
      (List.range (st.pulse_count - st.pulse_count)).map
        (fun i => st.pulse_count + 1 + i)
    simp
  | cons e es ih =>
    intro st
    obtain ⟨h1, h2⟩ := ih (stepClock st e).1
    have hle := stepClock_pc_le st e
    refine ⟨le_trans hle h1, ?_⟩
    show (stepClock st e).2 ++ (runClock (stepClock st e).1 es).2 =
      (List.range
        ((runClock (stepClock st e).1 es).1.pulse_count - st.pulse_count)).map
        (fun i => st.pulse_count + 1 + i)
    rw [h2, stepClock_emit]
    exact range_glue st.pulse_count (stepClock st e).1.pulse_count
      (runClock (stepClock st e).1 es).1.pulse_count hle h1

/-- C5: `set_bpm` on a running clock leaves the pulse counter, the elapsed
fraction of the current pulse and the transport flag unchanged and emits no
pulse; and every run of the engine, with BPM changes interleaved anywhere,
emits exactly the same consecutive pulse sequence that the run without the
change would emit — no pulse is skipped or repeated, only the timing
between pulses changes. -/
theorem set_bpm_no_pulse_jump :
    (∀ (st : ClockState) (b : ℚ),
      (set_bpm b st).pulse_count = st.pulse_count ∧
      (set_bpm b st).phase = st.phase ∧
      (set_bpm b st).running = st.running ∧
      stepClock st (ClockEv.setBpm b) = (set_bpm b st, [])) ∧
    (∀ (st : ClockState) (evs : List ClockEv),
      (runClock st evs).2 =
        (List.range ((runClock st evs).1.pulse_count - st.pulse_count)).map
          (fun i => st.pulse_count + 1 + i)) :=
  ⟨fun _ _ => ⟨rfl, rfl, rfl, rfl⟩,
    fun st evs => (runClock_consecutive evs st).2⟩
